import Mathlib

/-!
Verification development for the clarvis hook-to-speech pipeline.

The TypeScript sources are shallowly embedded as executable Lean
definitions: strings are `String`/`List Char`, JavaScript regular
expressions are hand-rolled scanners with the engine's leftmost-match and
greedy/lazy semantics for the concrete patterns used by the code, fallible
code returns `Option`/`Except`, and external effects (LLM provider calls,
the lspeak speech channel, the `Intl.Segmenter` sentence segmenter) are
parameters whose invocations are recorded in explicit logs/traces.
-/

namespace Clarvis

/-- Word character test for the JavaScript regex class `\w` (no `u` flag):
exactly ASCII letters, digits and underscore. -/
def isWordChar (c : Char) : Bool :=
  ('a' ≤ c && c ≤ 'z') || ('A' ≤ c && c ≤ 'Z') || ('0' ≤ c && c ≤ '9') || c = '_'

/-- Character test for the regex class `[\w-]` used for project names. -/
def isProjChar (c : Char) : Bool :=
  isWordChar c || c = '-'

/-- Strip an expected literal prefix; `some rest` when `s = key ++ rest`.
This models a regex matching a literal at the current position. -/
def dropStart : List Char → List Char → Option (List Char)
  | [], s => some s
  | _ :: _, [] => none
  | k :: ks, c :: cs => if c = k then dropStart ks cs else none

/-- Match `key(cls+)` at the head of `s` (a literal followed by a nonempty
greedy run of characters in class `cls`), returning the captured run. -/
def matchValueAt (key : List Char) (cls : Char → Bool) (s : List Char) : Option (List Char) :=
  match dropStart key s with
  | none => none
  | some rest =>
    let run := rest.takeWhile cls
    if run.isEmpty then none else some run

/-- Leftmost match of `key(cls+)` anywhere in `s`, as the JavaScript engine
finds it for the untagged regexes `context:(\w+)`, `intent:(\w+)` and
`project:([\w-]+)` in metadata.ts. -/
def findValue (key : List Char) (cls : Char → Bool) : List Char → Option (List Char)
  | [] => none
  | c :: cs =>
    match matchValueAt key cls (c :: cs) with
    | some v => some v
    | none => findValue key cls cs

/-- Match of `clarvis:\[([^\]]+)\]` starting exactly at the head of `s`:
the literal marker, then a nonempty greedy run of non-`]` characters,
then `]`. Returns the captured block content. -/
def blockAt (s : List Char) : Option (List Char) :=
  match dropStart ("clarvis:[".toList) s with
  | none => none
  | some rest =>
    if (rest.takeWhile (fun c => c ≠ ']')).isEmpty then none
    else if (rest.dropWhile (fun c => c ≠ ']')).head? = some ']' then
      some (rest.takeWhile (fun c => c ≠ ']'))
    else none

/-- Leftmost match of `clarvis:\[([^\]]+)\]` anywhere in the message
(metadata.ts line 20). -/
def findBlock : List Char → Option (List Char)
  | [] => none
  | c :: cs =>
    match blockAt (c :: cs) with
    | some b => some b
    | none => findBlock cs

/-- ClarvisMetadata from types.ts: a validated control tag. -/
structure ClarvisMetadata where
  context : String
  intent : String
  project : Option String
deriving DecidableEq

/-- Closed vocabulary for `context` (metadata.ts line 44). -/
def validContexts : List String :=
  ["assistant", "development", "exploration", "writing"]

/-- Closed vocabulary for `intent` (metadata.ts line 50). -/
def validIntents : List String :=
  ["navigation", "discussion", "completion", "status", "error"]

/-- Field extraction and validation from the matched block content
(metadata.ts lines 26-59): grep `context:`/`intent:`/`project:` values out
of the content in any order, and validate the two required values against
the closed vocabularies. -/
def extractFromContent (content : List Char) : Option ClarvisMetadata :=
  match findValue ("context:".toList) isWordChar content,
        findValue ("intent:".toList) isWordChar content with
  | some ctxRun, some intRun =>
    if validContexts.contains (String.mk ctxRun) && validIntents.contains (String.mk intRun) then
      some ⟨String.mk ctxRun, String.mk intRun,
            (findValue ("project:".toList) isProjChar content).map String.mk⟩
    else none
  | _, _ => none

/-- Embedding of `extractMetadata` (src/metadata.ts, current generation):
find the first `clarvis:[...]` block, then extract and validate its
fields. The debug logging side effects of the source are omitted (they do
not affect the returned value). -/
def extractMetadata (message : String) : Option ClarvisMetadata :=
  match findBlock message.toList with
  | none => none
  | some content => extractFromContent content

example : extractMetadata "clarvis:[context:development intent:completion project:auth] done" =
    some ⟨"development", "completion", some "auth"⟩ := by decide

example : extractMetadata "clarvis:[context:assistant intent:discussion]" =
    some ⟨"assistant", "discussion", none⟩ := by decide

example : extractMetadata "no tag here" = none := by decide

example : extractMetadata "clarvis:[context:bogus intent:discussion]" = none := by decide

/-- Substring occurrence test: `true` iff `key` occurs contiguously in `s`. -/
def hasSubstr (key : List Char) : List Char → Bool
  | [] => (dropStart key ([] : List Char)).isSome
  | c :: cs => (dropStart key (c :: cs)).isSome || hasSubstr key cs

theorem dropStart_eq_some {k s r : List Char} : dropStart k s = some r ↔ s = k ++ r := by
  induction k generalizing s with
  | nil => simp [dropStart]
  | cons a ks ih =>
    cases s with
    | nil => simp [dropStart]
    | cons c cs =>
      by_cases h : c = a
      · subst h
        simp [dropStart, ih]
      · simp [dropStart, h, Ne.symm h]

theorem hasSubstr_iff {key s : List Char} :
    hasSubstr key s = true ↔ ∃ a b, s = a ++ key ++ b := by
  induction s with
  | nil =>
    simp only [hasSubstr, Option.isSome_iff_exists, dropStart_eq_some]
    constructor
    · rintro ⟨r, hr⟩
      exact ⟨[], r, by simpa using hr⟩
    · rintro ⟨a, b, hab⟩
      refine ⟨b, ?_⟩
      have ha : a = [] ∧ key ++ b = [] := by
        constructor
        · cases a with
          | nil => rfl
          | cons x xs => simp at hab
        · cases a with
          | nil => simpa using hab.symm
          | cons x xs => simp at hab
      have hk : key = [] := by
        rcases List.append_eq_nil.mp ha.2 with ⟨h1, _⟩
        exact h1
      simp [hk, List.append_eq_nil.mp ha.2]
  | cons c cs ih =>
    simp only [hasSubstr, Bool.or_eq_true, Option.isSome_iff_exists, dropStart_eq_some, ih]
    constructor
    · rintro (⟨r, hr⟩ | ⟨a, b, hab⟩)
      · exact ⟨[], r, by simpa using hr⟩
      · exact ⟨c :: a, b, by simp [hab]⟩
    · rintro ⟨a, b, hab⟩
      cases a with
      | nil => exact Or.inl ⟨b, by simpa using hab⟩
      | cons x xs =>
        right
        refine ⟨xs, b, ?_⟩
        simp only [List.cons_append] at hab
        injection hab with h1 h2

theorem findValue_some_hasSubstr {key : List Char} {cls : Char → Bool} {s v : List Char}
    (h : findValue key cls s = some v) : hasSubstr key s = true := by
  induction s with
  | nil => simp [findValue] at h
  | cons c cs ih =>
    rw [findValue] at h
    rw [hasSubstr]
    cases hm : matchValueAt key cls (c :: cs) with
    | some w =>
      unfold matchValueAt at hm
      cases hd : dropStart key (c :: cs) with
      | none => rw [hd] at hm; simp at hm
      | some rest => simp [hd]
    | none =>
      rw [hm] at h
      simp [ih h]

theorem hasSubstr_of_contained {key l s : List Char} (hinf : ∃ a b, s = a ++ l ++ b)
    (h : hasSubstr key l = true) : hasSubstr key s = true := by
  rcases hinf with ⟨a, b, rfl⟩
  rcases hasSubstr_iff.mp h with ⟨x, y, rfl⟩
  exact hasSubstr_iff.mpr ⟨a ++ x, y ++ b, by simp⟩

theorem blockAt_some {s content : List Char} (h : blockAt s = some content) :
    (∃ rest, s = ("clarvis:[".toList) ++ rest ∧ content = rest.takeWhile (fun c => c ≠ ']')) := by
  unfold blockAt at h
  cases hd : dropStart ("clarvis:[".toList) s with
  | none => rw [hd] at h; simp at h
  | some rest =>
    rw [hd] at h
    refine ⟨rest, dropStart_eq_some.mp hd, ?_⟩
    have h2 : (if (rest.takeWhile (fun c => c ≠ ']')).isEmpty then none
        else if (rest.dropWhile (fun c => c ≠ ']')).head? = some ']' then
          some (rest.takeWhile (fun c => c ≠ ']'))
        else none) = some content := h
    by_cases he : (rest.takeWhile (fun c => c ≠ ']')).isEmpty
    · rw [if_pos he] at h2
      simp at h2
    · rw [if_neg he] at h2
      by_cases hh : (rest.dropWhile (fun c => c ≠ ']')).head? = some ']'
      · rw [if_pos hh] at h2
        exact (Option.some.inj h2).symm
      · rw [if_neg hh] at h2
        simp at h2

theorem findBlock_some_marker {s content : List Char} (h : findBlock s = some content) :
    hasSubstr ("clarvis:[".toList) s = true := by
  induction s with
  | nil => simp [findBlock] at h
  | cons c cs ih =>
    rw [findBlock] at h
    rw [hasSubstr]
    cases hb : blockAt (c :: cs) with
    | some b =>
      rcases blockAt_some hb with ⟨rest, hs, _⟩
      rw [dropStart_eq_some.mpr hs]
      simp
    | none =>
      rw [hb] at h
      rw [ih h]
      simp

theorem findBlock_some_contained {s content : List Char} (h : findBlock s = some content) :
    ∃ a b, s = a ++ content ++ b := by
  induction s with
  | nil => simp [findBlock] at h
  | cons c cs ih =>
    rw [findBlock] at h
    cases hb : blockAt (c :: cs) with
    | some b =>
      rw [hb] at h
      have hcb : b = content := by simpa using h
      rcases blockAt_some hb with ⟨rest, hs, hc⟩
      obtain ⟨d, hsplit⟩ : ∃ d, rest = content ++ d :=
        ⟨rest.dropWhile (fun c => c ≠ ']'), by
          rw [← hcb, hc]
          exact (List.takeWhile_append_dropWhile (p := fun c => c ≠ ']') (l := rest)).symm⟩
      exact ⟨"clarvis:[".toList, d, by rw [hs, hsplit]; simp⟩
    | none =>
      rw [hb] at h
      rcases ih h with ⟨a, b, hab⟩
      exact ⟨c :: a, b, by simp [hab]⟩

theorem findValue_none_of_no_substr {key : List Char} {cls : Char → Bool} {s : List Char}
    (h : hasSubstr key s = false) : findValue key cls s = none := by
  cases hv : findValue key cls s with
  | none => rfl
  | some v => rw [findValue_some_hasSubstr hv] at h; simp at h

theorem extractFromContent_none_of_no_key {key : List Char} {content : List Char}
    (hkey : key = ("context:".toList) ∨ key = ("intent:".toList))
    (hc : hasSubstr key content = false) : extractFromContent content = none := by
  unfold extractFromContent
  split
  · next ctxRun intRun hcv hiv =>
    rcases hkey with rfl | rfl
    · rw [findValue_none_of_no_substr hc] at hcv
      cases hcv
    · rw [findValue_none_of_no_substr hc] at hiv
      cases hiv
  · rfl

theorem extractMetadata_none_of_no_key {key : List Char} (s : String)
    (hkey : key = ("context:".toList) ∨ key = ("intent:".toList))
    (h : hasSubstr key s.toList = false) : extractMetadata s = none := by
  unfold extractMetadata
  split
  · rfl
  · next content heq =>
    have hinf : ∃ a b, s.toList = a ++ content ++ b := findBlock_some_contained heq
    have hc : hasSubstr key content = false := by
      cases hcc : hasSubstr key content with
      | false => rfl
      | true => rw [hasSubstr_of_contained hinf hcc] at h; simp at h
    exact extractFromContent_none_of_no_key hkey hc

/-- C3 counterexample: the current-generation extractor accepts blocks that
lie outside the exact grammar. A block with an extra unexpected key
(`foo:bar`) and a block using a comma delimiter are both accepted, whereas
the claim requires every string outside the exact grammar to yield none. -/
theorem extractMetadata_extra_key_accepted :
    extractMetadata "clarvis:[context:assistant intent:discussion foo:bar]" =
      some ⟨"assistant", "discussion", none⟩ ∧
    extractMetadata "clarvis:[context:assistant,intent:discussion]" =
      some ⟨"assistant", "discussion", none⟩ := by
  constructor
  · decide
  · decide

/-- C3 (amended): the extractor accepts the full cross-product of valid
`context`×`intent` values (with or without a `project` token), never
returns an out-of-vocabulary tag, and returns none whenever the marker
`clarvis:[`, the `context:` key, or the `intent:` key is absent from the
message; however, extra unexpected keys or stray characters inside the
bracketed block do not cause rejection. -/
theorem extractMetadata_grammar :
    (∀ c i, c ∈ validContexts → i ∈ validIntents →
      extractMetadata ("clarvis:[context:" ++ c ++ " intent:" ++ i ++ "]") =
        some ⟨c, i, none⟩ ∧
      extractMetadata ("clarvis:[context:" ++ c ++ " intent:" ++ i ++ " project:my-proj]") =
        some ⟨c, i, some "my-proj"⟩) ∧
    (∀ s t, extractMetadata s = some t →
      validContexts.contains t.context = true ∧ validIntents.contains t.intent = true) ∧
    (∀ s, hasSubstr ("clarvis:[".toList) s.toList = false → extractMetadata s = none) ∧
    (∀ s, hasSubstr ("context:".toList) s.toList = false → extractMetadata s = none) ∧
    (∀ s, hasSubstr ("intent:".toList) s.toList = false → extractMetadata s = none) := by
  refine ⟨?_, ?_, ?_, ?_, ?_⟩
  · intro c i hc hi
    simp only [validContexts, List.mem_cons, List.not_mem_nil, or_false] at hc
    simp only [validIntents, List.mem_cons, List.not_mem_nil, or_false] at hi
    rcases hc with rfl | rfl | rfl | rfl <;> rcases hi with rfl | rfl | rfl | rfl | rfl <;>
      exact ⟨by decide, by decide⟩
  · intro s t h
    unfold extractMetadata at h
    split at h
    · cases h
    · next content heq =>
      unfold extractFromContent at h
      split at h
      · next ctxRun intRun hcv hiv =>
        split at h
        · next hval =>
          have ht := Option.some.inj h
          rcases Bool.and_eq_true_iff.mp hval with ⟨h1, h2⟩
          rw [← ht]
          exact ⟨h1, h2⟩
        · cases h
      · cases h
  · intro s h
    unfold extractMetadata
    split
    · rfl
    · next content heq => rw [findBlock_some_marker heq] at h; simp at h
  · intro s h
    exact extractMetadata_none_of_no_key s (Or.inl rfl) h
  · intro s h
    exact extractMetadata_none_of_no_key s (Or.inr rfl) h

/-- C3 amended-claim witness at concrete inputs. -/
theorem extractMetadata_grammar_witness :
    extractMetadata "clarvis:[context:development intent:completion]" =
      some ⟨"development", "completion", none⟩ ∧
    extractMetadata "plain message with no marker" = none ∧
    extractMetadata "clarvis:[intent:discussion]" = none := by
  refine ⟨(extractMetadata_grammar.1 "development" "completion" (by decide) (by decide)).1, ?_, ?_⟩
  · exact extractMetadata_grammar.2.2.1 "plain message with no marker" (by decide)
  · exact extractMetadata_grammar.2.2.2.1 "clarvis:[intent:discussion]" (by decide)

/-- Tail test for the `clarvis:\[.*?\]$` part of the strip regex in
transcript.ts line 58: the list must start with the literal `clarvis:[`
and the remainder must run to the very end of the string with no newline
(`.` does not match newlines), ending in `]` (the `$` anchor). -/
def tagTailOK (l : List Char) : Bool :=
  match dropStart ("clarvis:[".toList) l with
  | none => false
  | some rest =>
    !rest.isEmpty && rest.all (fun c => c ≠ '\n') && rest.getLast? = some ']'

/-- Match test at one position for `(\n\n?)clarvis:\[.*?\]$`: a greedy
one-or-two-newline separator (the engine tries two newlines first and
backtracks to one) followed by the end-anchored tag tail. -/
def sepTagMatch : List Char → Bool
  | c :: d :: rest2 =>
    if c = '\n' then
      if d = '\n' then tagTailOK rest2 || tagTailOK (d :: rest2)
      else tagTailOK (d :: rest2)
    else false
  | _ => false

/-- Embedding of `text.replace(/(\n\n?)clarvis:\[.*?\]$/g, '')`
(transcript.ts line 58). Any match of this pattern necessarily extends to
the end of the string, so the replacement keeps exactly the characters
before the leftmost match and drops the rest; with no match the text is
unchanged. -/
def stripTagChars : List Char → List Char
  | [] => []
  | c :: rest => if sepTagMatch (c :: rest) then [] else c :: stripTagChars rest

/-- Embedding of the tag handling step of `extractLastAssistantMessage`
(transcript.ts lines 53-63): run the extractor, and only when a tag was
found apply the trailing-tag strip to the text. -/
def cleanMessage (text : String) : String × Option ClarvisMetadata :=
  match extractMetadata text with
  | some m => (String.mk (stripTagChars text.toList), some m)
  | none => (text, none)

/-- C4 counterexample: a valid tag at the start of the message is found by
the extractor but is not stripped, because the strip regex only matches a
newline-separated tag at the very end of the text; the returned text still
contains the control-tag syntax, refuting the claim that it never does
regardless of tag position. -/
theorem tag_not_stripped_when_not_trailing :
    cleanMessage "clarvis:[context:assistant intent:discussion] all done" =
      ("clarvis:[context:assistant intent:discussion] all done",
        some ⟨"assistant", "discussion", none⟩) ∧
    hasSubstr ("clarvis:[".toList)
      ("clarvis:[context:assistant intent:discussion] all done".toList) = true := by
  constructor
  · decide
  · decide

theorem tagTailOK_all {r : List Char} (hr : tagTailOK r = true) :
    r.all (fun c => c ≠ '\n') = true := by
  unfold tagTailOK at hr
  cases hd : dropStart ("clarvis:[".toList) r with
  | none => rw [hd] at hr; cases hr
  | some rest =>
    rw [hd] at hr
    simp only [Bool.and_eq_true] at hr
    rw [dropStart_eq_some.mp hd, List.all_append]
    simp only [Bool.and_eq_true]
    exact ⟨by decide, hr.1.2⟩

theorem tagTailOK_concat {body : List Char} (hb : body.all (fun c => c ≠ '\n') = true) :
    tagTailOK ("clarvis:[".toList ++ (body ++ [']'])) = true := by
  unfold tagTailOK
  rw [dropStart_eq_some.mpr rfl]
  simp only [List.all_append, Bool.and_eq_true, List.getLast?_concat]
  refine ⟨⟨by simp, ?_, by decide⟩, by simp⟩
  exact hb

theorem sepTagMatch_false_of_mem {l : List Char} (h2 : '\n' ∈ l.drop 2) :
    sepTagMatch l = false := by
  cases l with
  | nil => rfl
  | cons a l1 =>
    cases l1 with
    | nil => rfl
    | cons b l2 =>
      simp only [List.drop_succ_cons, List.drop_zero] at h2
      simp only [sepTagMatch]
      by_cases ha : a = '\n'
      · rw [if_pos ha]
        by_cases hb : b = '\n'
        · rw [if_pos hb]
          have t2 : tagTailOK l2 = false := by
            cases ht : tagTailOK l2 with
            | false => rfl
            | true =>
              have := tagTailOK_all ht
              rw [List.all_eq_true] at this
              have := this '\n' h2
              simp at this
          have t1 : tagTailOK (b :: l2) = false := by
            cases ht : tagTailOK (b :: l2) with
            | false => rfl
            | true =>
              have := tagTailOK_all ht
              rw [List.all_eq_true] at this
              have := this '\n' (by simp [hb])
              simp at this
          rw [t1, t2]
          rfl
        · rw [if_neg hb]
          cases ht : tagTailOK (b :: l2) with
          | false => rfl
          | true =>
            have := tagTailOK_all ht
            rw [List.all_eq_true] at this
            have := this '\n' (by simp [h2])
            simp at this
      · rw [if_neg ha]

theorem newline_mem_drop_one (p T : List Char) :
    '\n' ∈ (p ++ '\n' :: '\n' :: T).drop 1 := by
  cases p with
  | nil => simp
  | cons d p2 => simp

theorem strip_trailing_tag (pre body : List Char)
    (hb : body.all (fun c => c ≠ '\n') = true) :
    stripTagChars (pre ++ '\n' :: '\n' :: ("clarvis:[".toList ++ (body ++ [']']))) = pre := by
  induction pre with
  | nil =>
    have ht : sepTagMatch ('\n' :: '\n' :: ("clarvis:[".toList ++ (body ++ [']']))) = true := by
      simp only [sepTagMatch, if_pos rfl]
      rw [tagTailOK_concat hb]
      simp
    rw [List.nil_append, stripTagChars, ht]
    rfl
  | cons c p ih =>
    have hmem : '\n' ∈ (c :: (p ++ '\n' :: '\n' :: ("clarvis:[".toList ++ (body ++ [']'])))).drop 2 := by
      simp only [List.drop_succ_cons]
      exact newline_mem_drop_one p _
    have hf := sepTagMatch_false_of_mem hmem
    rw [List.cons_append, stripTagChars, hf]
    simp only [Bool.false_eq_true, if_false]
    rw [ih]

/-- C4 (amended): when a control tag is found, the resolver strips it only
when it appears as a newline-separated suffix running to the very end of
the message (the strip regex is end-anchored); in that trailing position
the tag block and its blank-line separator are removed exactly. When no
tag is found the text is returned unchanged. A tag anywhere else in the
message is left in the returned text. -/
theorem resolver_strips_trailing_tag (pre body : List Char)
    (hb : body.all (fun c => c ≠ '\n') = true)
    (hm : (extractMetadata (String.mk (pre ++ '\n' :: '\n' ::
        ("clarvis:[".toList ++ (body ++ [']']))))).isSome = true) :
    (cleanMessage (String.mk (pre ++ '\n' :: '\n' ::
        ("clarvis:[".toList ++ (body ++ [']']))))).1 = String.mk pre ∧
    (∀ t : String, extractMetadata t = none → cleanMessage t = (t, none)) := by
  constructor
  · unfold cleanMessage
    split
    · next m heq =>
      show String.mk (stripTagChars (String.mk (pre ++ '\n' :: '\n' ::
          ("clarvis:[".toList ++ (body ++ [']'])))).toList) = String.mk pre
      rw [show (String.mk (pre ++ '\n' :: '\n' ::
          ("clarvis:[".toList ++ (body ++ [']'])))).toList = pre ++ '\n' :: '\n' ::
          ("clarvis:[".toList ++ (body ++ [']'])) from rfl]
      rw [strip_trailing_tag pre body hb]
    · next heq => rw [heq] at hm; simp at hm
  · intro t h
    unfold cleanMessage
    split
    · next m heq => rw [h] at heq; cases heq
    · rfl

/-- C4 amended-claim witness: a concrete message ending in a blank line
followed by a valid tag resolves to the text with the tag suffix removed. -/
theorem resolver_strips_trailing_tag_witness :
    (cleanMessage (String.mk ("Done.".toList ++ '\n' :: '\n' ::
        ("clarvis:[".toList ++ ("context:assistant intent:discussion".toList ++ [']']))))).1 =
      String.mk ("Done.".toList) :=
  (resolver_strips_trailing_tag ("Done.".toList)
    ("context:assistant intent:discussion".toList) (by decide) (by decide)).1

/-- JSON whitespace accepted between tokens by `JSON.parse` (also the
whitespace characters relevant to `String.prototype.trim` in this
development). -/
def isJsonWs (c : Char) : Bool :=
  c = ' ' || c = '\n' || c = '\t' || c = '\r'

/-- JavaScript `String.prototype.trim` restricted to the whitespace
characters occurring in this development. -/
def jsTrimList (l : List Char) : List Char :=
  ((l.dropWhile isJsonWs).reverse.dropWhile isJsonWs).reverse

def jsTrim (s : String) : String :=
  String.mk (jsTrimList s.toList)

/-- JavaScript `x || 'default'` on an optional string: the default wins
when the value is absent or empty (falsy). -/
def jsOr (o : Option String) (d : String) : String :=
  match o with
  | some s => if s = "" then d else s
  | none => d

/-- Summarizer configuration slice used by `LLMClient.summarize`
(llm.ts): the optional persona preamble and the style-keyed instruction
templates. Configuration is parsed from TOML at runtime, so the template
table is modelled as a string-keyed association list. -/
structure LLMPromptCfg where
  base_instruction : Option String
  prompts : List (String × String)
deriving DecidableEq

/-- Record of one provider invocation (`provider.summarize(text, prompt,
topic, context)` in llm.ts line 152), for the no-network-call claims. -/
structure ProviderCall where
  text : String
  prompt : String
  topic : String
  context : String
deriving DecidableEq

/-- Embedding of `LLMClient.splitIntoSentences` (llm.ts lines 174-195).
The `Intl.Segmenter` is an external locale-aware segmenter, modelled as a
parameter returning `none` when segmentation throws (the catch branch). -/
def splitIntoSentences (segmenter : String → Option (List String)) (text : String) :
    List String :=
  if text.length < 10 then [text]
  else
    match segmenter text with
    | none => [text]
    | some segs =>
      if ((segs.map jsTrim).filter (fun s => s.length > 0)).length > 0 then
        (segs.map jsTrim).filter (fun s => s.length > 0)
      else [text]

/-- Structured context block appended to the instruction (llm.ts line
138). -/
def intentInstruction (context intent : String) (project : Option String) : String :=
  "\n\nCONTEXT: " ++ context ++ "\nINTENT: " ++ intent ++ "\nPROJECT: " ++
    jsOr project "none" ++
    "\n\nUse the explicit INTENT provided above - do not infer intent from the message content."

/-- Full instruction composition (llm.ts lines 141-143); an empty
configured base instruction is falsy and is treated as absent. -/
def fullPromptFor (cfg : LLMPromptCfg) (prompt context intent : String)
    (project : Option String) : String :=
  match cfg.base_instruction with
  | some base =>
    if base = "" then intentInstruction context intent project ++ "\n\n" ++ prompt
    else base ++ intentInstruction context intent project ++ "\n\n" ++ prompt
  | none => intentInstruction context intent project ++ "\n\n" ++ prompt

/-- Embedding of `LLMClient.summarize` (llm.ts lines 117-168, current
generation). The provider is a parameter returning either the generated
summary or a thrown error message; the returned list records every
provider invocation, so an empty list means no network call was issued.
Thrown errors are the `Except.error` branch. -/
def summarize (cfg : LLMPromptCfg)
    (provider : String → String → String → String → Except String String)
    (segmenter : String → Option (List String))
    (text style context intent : String) (project : Option String) :
    Except String (List String) × List ProviderCall :=
  if style = "bypass" then (Except.ok [text], [])
  else
    match cfg.prompts.lookup style with
    | none => (Except.error ("No prompt configured for style: " ++ style), [])
    | some prompt =>
      if prompt = "" then (Except.error ("No prompt configured for style: " ++ style), [])
      else
        match provider text (fullPromptFor cfg prompt context intent project)
            (jsOr project "general") context with
        | Except.error e =>
          (Except.error e,
            [⟨text, fullPromptFor cfg prompt context intent project, jsOr project "general", context⟩])
        | Except.ok summary =>
          (Except.ok ((splitIntoSentences segmenter summary).map jsTrim),
            [⟨text, fullPromptFor cfg prompt context intent project, jsOr project "general", context⟩])

/-- C1: for every configuration, provider, segmenter and input (including
the empty string), `summarize` with style `bypass` returns exactly the
one-element sequence containing the input text and issues no provider
call (the recorded provider-call log is empty). -/
theorem summarize_bypass_passthrough
    (cfg : LLMPromptCfg) (provider : String → String → String → String → Except String String)
    (segmenter : String → Option (List String)) (text context intent : String)
    (project : Option String) :
    summarize cfg provider segmenter text "bypass" context intent project =
      (Except.ok [text], []) := by
  rfl

/-- C9 counterexample: `bypass` is not in the configured template set of
the standard configuration, yet `summarize` succeeds for it instead of
failing with a configuration error, because the bypass short-circuit runs
before the template lookup. -/
theorem summarize_bypass_no_template_ok :
    (LLMPromptCfg.mk none [("terse", "T"), ("brief", "B"), ("normal", "N")]).prompts.lookup
      "bypass" = none ∧
    summarize (LLMPromptCfg.mk none [("terse", "T"), ("brief", "B"), ("normal", "N")])
      (fun _ _ _ _ => Except.ok "") (fun _ => none) "hi" "bypass" "assistant" "discussion"
      none = (Except.ok ["hi"], []) := by
  constructor
  · rfl
  · rfl

/-- C9 (amended): for every style other than `bypass` with no nonempty
instruction template configured for it, `summarize` fails with the
configuration error naming the style, issues no provider call, and does
not default to another template. -/
theorem summarize_missing_template_error
    (cfg : LLMPromptCfg) (provider : String → String → String → String → Except String String)
    (segmenter : String → Option (List String)) (text style context intent : String)
    (project : Option String)
    (hstyle : style ≠ "bypass")
    (hmiss : cfg.prompts.lookup style = none ∨ cfg.prompts.lookup style = some "") :
    summarize cfg provider segmenter text style context intent project =
      (Except.error ("No prompt configured for style: " ++ style), []) := by
  unfold summarize
  rw [if_neg hstyle]
  rcases hmiss with h | h
  · rw [h]
  · rw [h]
    simp

/-- C9 amended-claim witness: the style `fancy` has no configured
template and fails with the configuration error. -/
theorem summarize_missing_template_error_witness :
    summarize (LLMPromptCfg.mk none [("terse", "T")]) (fun _ _ _ _ => Except.ok "")
      (fun _ => none) "hi" "fancy" "assistant" "discussion" none =
      (Except.error ("No prompt configured for style: " ++ "fancy"), []) :=
  summarize_missing_template_error _ _ _ _ _ _ _ _ (by decide) (Or.inl rfl)

/-- Voice configuration consumed by the Speaker (types.ts `Config.voice`).
The numeric cache threshold only ever flows into the command line via
`toString`, so it is modelled as its rendered string. -/
structure VoiceConfig where
  provider : String
  voice_id : Option String
  api_key : Option String
  cache_threshold : Option String
deriving DecidableEq

/-- Cache decision of `Speaker.speak` (speaker.ts line 20):
`useCache !== undefined ? useCache : (mode !== 'full')`. -/
def speakerShouldCache (mode : String) (useCache : Option Bool) : Bool :=
  match useCache with
  | some b => b
  | none => mode ≠ "full"

/-- Embedding of `buildCommand` (speaker.ts lines 23-50): the lspeak
argument vector for one sentence. The sentence is always a discrete final
argument, never interpolated into a command string. -/
def buildCommand (vc : VoiceConfig) (sc : Bool) (sentence : String) : List String :=
  ["lspeak"]
    ++ (if sc then [] else ["--no-cache"])
    ++ (if vc.provider ≠ "" then ["--provider", vc.provider] else [])
    ++ (match vc.voice_id with
        | some v => if v ≠ "" && vc.provider ≠ "system" then ["--voice", v] else []
        | none => [])
    ++ (match vc.cache_threshold with
        | some t => ["--cache-threshold", t]
        | none => [])
    ++ [sentence]

/-- Events observed on the external speech channel: the begin and the
completion of one lspeak invocation with the given argument vector. -/
inductive SpeakEvent where
  | start (args : List String)
  | done (args : List String)
deriving DecidableEq

/-- Sequential dispatch loop of `Speaker.speak` (speaker.ts lines 58-63):
each sentence's channel call is awaited to completion before the next
begins, and a thrown channel failure aborts the loop. The channel is a
parameter; the returned trace records the begin/completion events in
order, a failing call contributing its begin event only. -/
def speakGo (vc : VoiceConfig) (channel : List String → Except String Unit) (sc : Bool) :
    List String → Except String Unit × List SpeakEvent
  | [] => (Except.ok (), [])
  | s :: rest =>
    match channel (buildCommand vc sc s) with
    | Except.error e => (Except.error e, [SpeakEvent.start (buildCommand vc sc s)])
    | Except.ok _ =>
      ((speakGo vc channel sc rest).1,
        SpeakEvent.start (buildCommand vc sc s) :: SpeakEvent.done (buildCommand vc sc s) ::
          (speakGo vc channel sc rest).2)

/-- Embedding of `Speaker.speak` (speaker.ts lines 16-63). -/
def speak (vc : VoiceConfig) (channel : List String → Except String Unit)
    (sentences : List String) (mode : String) (useCache : Option Bool) :
    Except String Unit × List SpeakEvent :=
  speakGo vc channel (speakerShouldCache mode useCache) sentences

/-- C2 evaluation at the failing input: with no override, the Speaker
enables caching for the pass-through style `bypass` (no `--no-cache`
flag is emitted) and disables it exactly for `full`, while the claim and
the newer unit test (part_007: only bypass does not cache, full now
caches) require the opposite pair. The override conjunct holds as
claimed. -/
theorem speaker_cache_decision_eval :
    speakerShouldCache "bypass" none = true ∧
    speakerShouldCache "full" none = false ∧
    buildCommand ⟨"system", none, none, none⟩ (speakerShouldCache "bypass" none) "hi" =
      ["lspeak", "--provider", "system", "hi"] ∧
    (∀ mode b, speakerShouldCache mode (some b) = b) := by
  refine ⟨rfl, rfl, rfl, ?_⟩
  intro mode b
  rfl

/-- C7: for every `speak` invocation the channel trace is strictly
sequential in list order: on success every sentence contributes its
begin event immediately followed by its completion event, in order; on a
channel failure the failure propagates to the caller unchanged, all
earlier sentences completed, the failing sentence contributes only its
begin event, and no later sentence is dispatched at all. -/
theorem speak_sequential_trace (vc : VoiceConfig)
    (channel : List String → Except String Unit) (sentences : List String)
    (mode : String) (useCache : Option Bool) :
    ((speak vc channel sentences mode useCache).1 = Except.ok () →
      (speak vc channel sentences mode useCache).2 =
        sentences.flatMap (fun s =>
          [SpeakEvent.start (buildCommand vc (speakerShouldCache mode useCache) s),
           SpeakEvent.done (buildCommand vc (speakerShouldCache mode useCache) s)])) ∧
    (∀ e, (speak vc channel sentences mode useCache).1 = Except.error e →
      ∃ pre s post, sentences = pre ++ s :: post ∧
        channel (buildCommand vc (speakerShouldCache mode useCache) s) = Except.error e ∧
        (∀ p ∈ pre, channel (buildCommand vc (speakerShouldCache mode useCache) p) =
          Except.ok ()) ∧
        (speak vc channel sentences mode useCache).2 =
          pre.flatMap (fun p =>
            [SpeakEvent.start (buildCommand vc (speakerShouldCache mode useCache) p),
             SpeakEvent.done (buildCommand vc (speakerShouldCache mode useCache) p)]) ++
            [SpeakEvent.start (buildCommand vc (speakerShouldCache mode useCache) s)]) := by
  unfold speak
  induction sentences with
  | nil =>
    constructor
    · intro _
      rfl
    · intro e he
      simp [speakGo] at he
  | cons s rest ih =>
    constructor
    · intro hok
      rw [speakGo] at hok ⊢
      cases hc : channel (buildCommand vc (speakerShouldCache mode useCache) s) with
      | error e => rw [hc] at hok; simp at hok
      | ok _ =>
        rw [hc] at hok
        simp only at hok ⊢
        rw [List.flatMap_cons, ih.1 hok]
        simp
    · intro e he
      rw [speakGo] at he
      cases hc : channel (buildCommand vc (speakerShouldCache mode useCache) s) with
      | error e2 =>
        rw [hc] at he
        simp only at he
        have he2 : e2 = e := by
          have h3 := he
          simp at h3
          exact h3
        subst he2
        refine ⟨[], s, rest, rfl, hc, by intro p hp; simp at hp, ?_⟩
        rw [speakGo, hc]
        rfl
      | ok _ =>
        rw [hc] at he
        simp only at he
        rcases ih.2 e he with ⟨pre, s2, post, hsplit, hchan, hpre, htrace⟩
        refine ⟨s :: pre, s2, post, by rw [hsplit]; simp, hchan, ?_, ?_⟩
        · intro p hp
          rcases List.mem_cons.mp hp with rfl | hp2
          · exact hc
          · exact hpre p hp2
        · rw [speakGo, hc]
          simp only
          rw [htrace, List.flatMap_cons]
          simp

/-- C7 witness: a two-sentence dispatch over an always-succeeding channel
produces the fully sequential begin/complete trace. -/
theorem speak_sequential_trace_witness :
    (speak ⟨"system", none, none, none⟩ (fun _ => Except.ok ()) ["a", "b"] "terse" none).2 =
      ["a", "b"].flatMap (fun s =>
        [SpeakEvent.start (buildCommand ⟨"system", none, none, none⟩
            (speakerShouldCache "terse" none) s),
         SpeakEvent.done (buildCommand ⟨"system", none, none, none⟩
            (speakerShouldCache "terse" none) s)]) :=
  (speak_sequential_trace ⟨"system", none, none, none⟩ (fun _ => Except.ok ())
    ["a", "b"] "terse" none).1 rfl

/-- JSON values as produced by `JSON.parse`. Numeric literals are kept as
written (no claim in this development depends on numeric values). -/
inductive JVal where
  | jnull
  | jbool (b : Bool)
  | jnum (lit : String)
  | jstr (s : String)
  | jarr (xs : List JVal)
  | jobj (fields : List (String × JVal))

def skipWs (l : List Char) : List Char :=
  l.dropWhile isJsonWs

def hexDigitVal (c : Char) : Option Nat :=
  if '0' ≤ c && c ≤ '9' then some (c.toNat - 48)
  else if 'a' ≤ c && c ≤ 'f' then some (c.toNat - 87)
  else if 'A' ≤ c && c ≤ 'F' then some (c.toNat - 55)
  else none

/-- Single-character JSON string escapes. -/
def escChar (e : Char) : Option Char :=
  if e = '"' then some '"'
  else if e = '\\' then some '\\'
  else if e = '/' then some '/'
  else if e = 'n' then some '\n'
  else if e = 't' then some '\t'
  else if e = 'r' then some '\r'
  else if e = 'b' then some (Char.ofNat 8)
  else if e = 'f' then some (Char.ofNat 12)
  else none

/-- Parser for a JSON string body after the opening quote, with strict
`JSON.parse` semantics: raw control characters (below 0x20, including raw
newlines) are rejected; `\uXXXX` escapes are decoded via `Char.ofNat`
(surrogate halves, which denote no scalar value, are outside the inputs
of this development). Returns the decoded characters and the remainder
after the closing quote. -/
def parseStringBody : List Char → Option (List Char × List Char)
  | [] => none
  | c :: rest =>
    if c = '"' then some ([], rest)
    else if c = '\\' then
      match rest with
      | [] => none
      | e :: rest2 =>
        if e = 'u' then
          match rest2 with
          | h1 :: h2 :: h3 :: h4 :: rest3 =>
            match hexDigitVal h1, hexDigitVal h2, hexDigitVal h3, hexDigitVal h4 with
            | some a, some b, some c2, some d =>
              match parseStringBody rest3 with
              | some (s, r) => some (Char.ofNat (4096 * a + 256 * b + 16 * c2 + d) :: s, r)
              | none => none
            | _, _, _, _ => none
          | _ => none
        else
          match escChar e with
          | some ch =>
            match parseStringBody rest2 with
            | some (s, r) => some (ch :: s, r)
            | none => none
          | none => none
    else if c.toNat < 32 then none
    else
      match parseStringBody rest with
      | some (s, r) => some (c :: s, r)
      | none => none

def digits1 (l : List Char) : Option (List Char × List Char) :=
  if (l.takeWhile Char.isDigit).isEmpty then none
  else some (l.takeWhile Char.isDigit, l.dropWhile Char.isDigit)

def parseFrac : List Char → Option (List Char × List Char)
  | '.' :: r =>
    match digits1 r with
    | some (ds, r2) => some ('.' :: ds, r2)
    | none => none
  | l => some ([], l)

def parseExp : List Char → Option (List Char × List Char)
  | [] => some ([], [])
  | c :: r =>
    if c = 'e' || c = 'E' then
      match r with
      | [] => none
      | s :: r2 =>
        if s = '+' || s = '-' then
          match digits1 r2 with
          | some (ds, r3) => some (c :: s :: ds, r3)
          | none => none
        else
          match digits1 r with
          | some (ds, r3) => some (c :: ds, r3)
          | none => none
    else some ([], c :: r)

/-- Number token: optional minus, digits, optional fraction and exponent,
returned as the literal text. (Slightly laxer than JSON on redundant
leading zeros; no input of this development contains numbers outside
strings.) -/
def parseNumber (l : List Char) : Option (List Char × List Char) :=
  match (match l with | '-' :: r => (['-'], r) | _ => (([] : List Char), l)) with
  | (sign, l1) =>
    match digits1 l1 with
    | none => none
    | some (ip, l2) =>
      match parseFrac l2 with
      | none => none
      | some (fp, l3) =>
        match parseExp l3 with
        | none => none
        | some (ep, l4) => some (sign ++ ip ++ fp ++ ep, l4)

mutual

/-- Recursive-descent JSON value parser modelling `JSON.parse`. The fuel
argument only bounds the recursion; every recursive call is preceded by
the consumption of at least one character, so fuel `length + 1` (used by
`jsonParse`) never runs out. -/
def parseValue : Nat → List Char → Option (JVal × List Char)
  | 0, _ => none
  | fuel+1, l =>
    match skipWs l with
    | [] => none
    | c :: rest =>
      if c = '{' then
        match skipWs rest with
        | '}' :: r2 => some (JVal.jobj [], r2)
        | r2 =>
          match parseMembers fuel r2 with
          | some (fs, r3) => some (JVal.jobj fs, r3)
          | none => none
      else if c = '[' then
        match skipWs rest with
        | ']' :: r2 => some (JVal.jarr [], r2)
        | r2 =>
          match parseItems fuel r2 with
          | some (xs, r3) => some (JVal.jarr xs, r3)
          | none => none
      else if c = '"' then
        match parseStringBody rest with
        | some (s, r2) => some (JVal.jstr (String.mk s), r2)
        | none => none
      else if c = 't' then
        match dropStart ("rue".toList) rest with
        | some r2 => some (JVal.jbool true, r2)
        | none => none
      else if c = 'f' then
        match dropStart ("alse".toList) rest with
        | some r2 => some (JVal.jbool false, r2)
        | none => none
      else if c = 'n' then
        match dropStart ("ull".toList) rest with
        | some r2 => some (JVal.jnull, r2)
        | none => none
      else if c = '-' || c.isDigit then
        match parseNumber (c :: rest) with
        | some (lit, r2) => some (JVal.jnum (String.mk lit), r2)
        | none => none
      else none

/-- Object members after `{` (when not immediately `}`). -/
def parseMembers : Nat → List Char → Option (List (String × JVal) × List Char)
  | 0, _ => none
  | fuel+1, l =>
    match skipWs l with
    | '"' :: rest =>
      match parseStringBody rest with
      | some (k, r2) =>
        match skipWs r2 with
        | ':' :: r3 =>
          match parseValue fuel r3 with
          | some (v, r4) =>
            match skipWs r4 with
            | ',' :: r5 =>
              match parseMembers fuel r5 with
              | some (fs, r6) => some ((String.mk k, v) :: fs, r6)
              | none => none
            | '}' :: r5 => some ([(String.mk k, v)], r5)
            | _ => none
          | none => none
        | _ => none
      | none => none
    | _ => none

/-- Array items after `[` (when not immediately `]`). -/
def parseItems : Nat → List Char → Option (List JVal × List Char)
  | 0, _ => none
  | fuel+1, l =>
    match parseValue fuel l with
    | some (v, r2) =>
      match skipWs r2 with
      | ',' :: r3 =>
        match parseItems fuel r3 with
        | some (xs, r4) => some (v :: xs, r4)
        | none => none
      | ']' :: r3 => some ([v], r3)
      | _ => none
    | none => none

end

/-- Model of `JSON.parse` on character lists: one value, then only
trailing whitespace. -/
def jsonParseChars (l : List Char) : Option JVal :=
  match parseValue (l.length + 1) l with
  | some (v, rest) => if (skipWs rest).isEmpty then some v else none
  | none => none

/-- Model of `JSON.parse` on strings. -/
def jsonParse (s : String) : Option JVal :=
  jsonParseChars s.toList

example : jsonParse "\x7b\"a\": [1, \"x\"], \"b\": null\x7d" =
    some (JVal.jobj [("a", JVal.jarr [JVal.jnum "1", JVal.jstr "x"]), ("b", JVal.jnull)]) := by
  rfl

example : jsonParse "\x7b\"message\":" = none := by rfl

example : jsonParse "\x7b\"a\":\n\"line\"\x7d" = some (JVal.jobj [("a", JVal.jstr "line")]) := by
  rfl

example : jsonParse "\"a\\nb\"" = some (JVal.jstr (String.mk ['a', '\n', 'b'])) := by rfl

example : jsonParse "\x7b\"a\":1\x7d extra" = none := by rfl

/-- JavaScript property access `v[k]` on a parsed JSON value: defined for
objects (`JSON.parse` keeps the last of duplicate keys), `undefined`
(none) otherwise. -/
def jGet : JVal → String → Option JVal
  | JVal.jobj fs, k => fs.reverse.lookup k
  | _, _ => none

/-- JavaScript truthiness of a parsed JSON value. Numeric truthiness is
decided on the literal (exact for the canonical zero spellings; no claim
in this development exercises numeric truthiness). -/
def jsTruthy : JVal → Bool
  | JVal.jnull => false
  | JVal.jbool b => b
  | JVal.jnum lit => !(lit = "0" || lit = "-0")
  | JVal.jstr s => s ≠ ""
  | JVal.jarr _ => true
  | JVal.jobj _ => true


/-- HookEvent from types.ts. The optional `stop_hook_active` field is
only ever consumed as a boolean guard in main, so it is modelled by the
truthiness of the parsed field (false when absent). -/
structure HookEvent where
  session_id : String
  transcript_path : String
  cwd : String
  hook_event_name : String
  stop_hook_active : Bool
deriving DecidableEq

/-- Property access returning a string exactly when `typeof v[k] ===
'string'` holds. -/
def getStrField (v : JVal) (k : String) : Option String :=
  match jGet v k with
  | some (JVal.jstr s) => some s
  | _ => none

/-- Embedding of the validation part of `parseHookInput`
(hookParser.ts lines 38-60): the consumed stdin text is trimmed; empty
input, unparseable JSON, and any shape without all four required
string-typed fields yield `none`; a well-formed payload yields the
descriptor. The timeout and stream-error paths of the source reject the
read before this logic runs and likewise surface as `none` to the
caller. -/
def parseHookInputPure (input : String) : Option HookEvent :=
  if jsTrim input = "" then none
  else
    match jsonParse (jsTrim input) with
    | none => none
    | some v =>
      match getStrField v "session_id", getStrField v "transcript_path",
            getStrField v "cwd", getStrField v "hook_event_name" with
      | some a, some b, some c, some d =>
        some ⟨a, b, c, d,
          (match jGet v "stop_hook_active" with
           | some w => jsTruthy w
           | none => false)⟩
      | _, _, _, _ => none

theorem getStrField_none_of_not_obj {v : JVal} (h : ∀ fs, v ≠ JVal.jobj fs) (k : String) :
    getStrField v k = none := by
  unfold getStrField jGet
  cases v with
  | jobj fs => exact absurd rfl (h fs)
  | jnull => rfl
  | jbool b => rfl
  | jnum lit => rfl
  | jstr s => rfl
  | jarr xs => rfl

/-- C8: the EventReader fails closed. Empty or whitespace-only input,
input that does not parse as JSON, a parsed non-object value, and a
parsed object missing any of the four required string-typed fields all
yield no event; a payload with all four string fields yields the parsed
descriptor. The embedding is a total function, so no exception reaches
the caller on any input. -/
theorem parseHookInput_fails_closed :
    (parseHookInputPure "" = none) ∧
    (∀ s, jsTrim s = "" → parseHookInputPure s = none) ∧
    (∀ s, jsonParse (jsTrim s) = none → parseHookInputPure s = none) ∧
    (∀ s v, jsonParse (jsTrim s) = some v → (∀ fs, v ≠ JVal.jobj fs) →
      parseHookInputPure s = none) ∧
    (∀ s v, jsonParse (jsTrim s) = some v →
      (getStrField v "session_id" = none ∨ getStrField v "transcript_path" = none ∨
        getStrField v "cwd" = none ∨ getStrField v "hook_event_name" = none) →
      parseHookInputPure s = none) ∧
    (∀ s v a b c d, jsonParse (jsTrim s) = some v →
      getStrField v "session_id" = some a → getStrField v "transcript_path" = some b →
      getStrField v "cwd" = some c → getStrField v "hook_event_name" = some d →
      parseHookInputPure s = some ⟨a, b, c, d,
        (match jGet v "stop_hook_active" with
         | some w => jsTruthy w
         | none => false)⟩) := by
  refine ⟨by rfl, ?_, ?_, ?_, ?_, ?_⟩
  · intro s h
    unfold parseHookInputPure
    rw [if_pos h]
  · intro s h
    unfold parseHookInputPure
    split
    · rfl
    · rw [h]
  · intro s v hv hobj
    unfold parseHookInputPure
    split
    · rfl
    · rw [hv]
      simp only
      rw [getStrField_none_of_not_obj hobj]
  · intro s v hv hmiss
    unfold parseHookInputPure
    split
    · rfl
    · rw [hv]
      simp only
      rcases hmiss with h | h | h | h
      · rw [h]
      · rw [h]
        cases getStrField v "session_id" <;> rfl
      · rw [h]
        cases getStrField v "session_id" <;> cases getStrField v "transcript_path" <;> rfl
      · rw [h]
        cases getStrField v "session_id" <;> cases getStrField v "transcript_path" <;>
          cases getStrField v "cwd" <;> rfl
  · intro s v a b c d hv ha hb hc hd
    unfold parseHookInputPure
    split
    · next hz =>
      rw [hz] at hv
      have : jsonParse "" = none := by rfl
      rw [this] at hv
      cases hv
    · rw [hv]
      simp only
      rw [ha, hb, hc, hd]

/-- C8 witness at concrete inputs: a malformed payload yields no event
and a well-formed one yields its descriptor. -/
theorem parseHookInput_fails_closed_witness :
    parseHookInputPure "not json" = none ∧
    parseHookInputPure "\x7b\"session_id\":\"s\"\x7d" = none ∧
    parseHookInputPure
      "\x7b\"session_id\":\"s\",\"transcript_path\":\"/t\",\"cwd\":\"/w\",\"hook_event_name\":\"Stop\"\x7d" =
      some ⟨"s", "/t", "/w", "Stop", false⟩ := by
  refine ⟨?_, ?_, ?_⟩
  · exact parseHookInput_fails_closed.2.2.1 "not json" (by rfl)
  · exact parseHookInput_fails_closed.2.2.2.2.1 "\x7b\"session_id\":\"s\"\x7d"
      (JVal.jobj [("session_id", JVal.jstr "s")]) (by rfl) (Or.inr (Or.inl (by rfl)))
  · exact parseHookInput_fails_closed.2.2.2.2.2
      "\x7b\"session_id\":\"s\",\"transcript_path\":\"/t\",\"cwd\":\"/w\",\"hook_event_name\":\"Stop\"\x7d"
      (JVal.jobj [("session_id", JVal.jstr "s"), ("transcript_path", JVal.jstr "/t"),
        ("cwd", JVal.jstr "/w"), ("hook_event_name", JVal.jstr "Stop")])
      "s" "/t" "/w" "Stop" (by rfl) (by rfl) (by rfl) (by rfl) (by rfl)

/-- JavaScript `content.split('\n')`: split at every newline, keeping
empty segments. -/
def splitNl : List Char → List (List Char)
  | [] => [[]]
  | c :: rest =>
    if c = '\n' then [] :: splitNl rest
    else
      match splitNl rest with
      | [] => [[c]]
      | l :: ls => (c :: l) :: ls

/-- Record reconstruction loop of `extractLastAssistantMessage`
(transcript.ts lines 20-35): accumulate physical lines into a buffer,
closing a logical record whenever the buffer parses as JSON; on a parse
failure the newline is restored and accumulation continues. A trailing
buffer that never parses is discarded when the lines run out. -/
def reconstructGo : List (List Char) → List Char → List (List Char)
  | [], _ => []
  | line :: rest, cur =>
    if (jsonParseChars (cur ++ line)).isSome then
      (cur ++ line) :: reconstructGo rest []
    else reconstructGo rest ((cur ++ line) ++ ['\n'])

def reconstruct (lines : List (List Char)) : List (List Char) :=
  reconstructGo lines []

/-- First content item with `type === 'text'` and truthy `text`
(transcript.ts lines 49-50), returning that item's `text` value. -/
def findTextItem : List JVal → Option JVal
  | [] => none
  | item :: rest =>
    if (match jGet item "type" with
        | some (JVal.jstr ty) => ty = "text"
        | _ => false) &&
       (match jGet item "text" with
        | some w => jsTruthy w
        | none => false) then jGet item "text"
    else findTextItem rest

/-- Per-record handling of the scan loop (transcript.ts lines 43-66): the
record must have an assistant-role message with truthy content; only an
array content is iterated for a text item (a non-iterable content raises
a TypeError that the per-record catch turns into a skip, and iterating a
string finds no object items); a truthy non-string `text` value makes the
downstream string operations throw, which the same catch turns into a
skip. A found text string is returned with its tag handling applied. -/
def processEntry (entry : JVal) : Option (String × Option ClarvisMetadata) :=
  match jGet entry "message" with
  | none => none
  | some m =>
    if (match jGet m "role" with
        | some (JVal.jstr r) => r = "assistant"
        | _ => false) &&
       (match jGet m "content" with
        | some c => jsTruthy c
        | none => false) then
      match jGet m "content" with
      | some (JVal.jarr items) =>
        match findTextItem items with
        | some (JVal.jstr t) => some (cleanMessage t)
        | some _ => none
        | none => none
      | _ => none
    else none

/-- Scan of the reconstructed records from most recent to oldest
(transcript.ts lines 41-71): records that fail to parse or fail the shape
checks are skipped and the scan continues. -/
def scanEntries : List (List Char) → Option (String × Option ClarvisMetadata)
  | [] => none
  | e :: rest =>
    match jsonParseChars e with
    | none => scanEntries rest
    | some entry =>
      match processEntry entry with
      | some result => some result
      | none => scanEntries rest

/-- Reconstructed logical records of a transcript. -/
def transcriptEntries (content : String) : List (List Char) :=
  reconstruct (splitNl (jsTrimList content.toList))

/-- JavaScript `entries.slice(-20)`: the most recent 20 records. -/
def lastTwenty (es : List (List Char)) : List (List Char) :=
  es.drop (es.length - 20)

/-- Embedding of `extractLastAssistantMessage` (transcript.ts, the
`src/unnamed/part_003` resolver): empty content resolves to empty text;
otherwise reconstruct records, restrict to the most recent 20, scan from
most recent to oldest, and fall back to empty text when no assistant
message with text is found. File-system errors of the source (missing
file, permission, decode) take the same empty-text path and are outside
this pure embedding, which starts from the file content. -/
def extractLastAssistantMessage (content : String) : String × Option ClarvisMetadata :=
  if jsTrimList content.toList = [] then ("", none)
  else
    match scanEntries (lastTwenty (transcriptEntries content)).reverse with
    | some r => r
    | none => ("", none)

/-- Lowercase hex digit for a value below 16. -/
def hexDigit (n : Nat) : Char :=
  if n < 10 then Char.ofNat (48 + n) else Char.ofNat (87 + n)

/-- JSON string escaping for one character, as a serializer writing the
transcript would produce it: the named escapes for quote, backslash and
common control characters, `\u00XX` for the remaining control characters,
and every other character written raw. -/
def escapeChar (c : Char) : List Char :=
  if c = '"' then ['\\', '"']
  else if c = '\\' then ['\\', '\\']
  else if c = '\n' then ['\\', 'n']
  else if c = '\r' then ['\\', 'r']
  else if c = '\t' then ['\\', 't']
  else if c.toNat < 32 then
    ['\\', 'u', '0', '0', hexDigit (c.toNat / 16), hexDigit (c.toNat % 16)]
  else [c]

def escapeChars : List Char → List Char
  | [] => []
  | c :: cs => escapeChar c ++ escapeChars cs

/-- Modelled from the spec: the transcript writer is external to this
repository (the transcript is an append-only log written by the hook's
host). One assistant turn is serialized in the Claude Code record shape
with JSON string escaping; the record is deliberately written across two
physical lines (a newline after the `message` key, legal JSON whitespace)
so that physical lines do not align with record boundaries, as spec §4.2
step 2 requires the reader to tolerate. -/
def recordLineA : List Char := "\x7b\"message\":".toList

def recordLineB (t : String) : List Char :=
  ("\x7b\"role\":\"assistant\",\"content\":[\x7b\"type\":\"text\",\"text\":\"".toList) ++
    (escapeChars t.toList ++ ("\"\x7d]\x7d\x7d".toList))

def recordChars (t : String) : List Char :=
  recordLineA ++ '\n' :: recordLineB t

/-- Join records with single newline separators. -/
def joinNl : List (List Char) → List Char
  | [] => []
  | r :: rs =>
    r ++ (match rs with
          | [] => []
          | _ :: _ => '\n' :: joinNl rs)

/-- Transcript of N serialized turns, joined by newlines. -/
def serializeTranscript (texts : List String) : String :=
  String.mk (joinNl (texts.map recordChars))

/-- The JSON value a serialized turn denotes. -/
def recordJVal (t : String) : JVal :=
  JVal.jobj [("message", JVal.jobj [("role", JVal.jstr "assistant"),
    ("content", JVal.jarr [JVal.jobj [("type", JVal.jstr "text"), ("text", JVal.jstr t)]])])]

theorem char_ofNat_toNat_small (c : Char) (h : c.toNat < 55296) :
    Char.ofNat c.toNat = c := by
  apply Char.ext
  apply UInt32.ext
  unfold Char.ofNat
  rw [dif_pos (Or.inl h)]
  rfl

theorem hexDigitVal_hexDigit (n : Nat) (h : n < 16) :
    hexDigitVal (hexDigit n) = some n := by
  interval_cases n <;> rfl

/-- Round trip between the serializer's string escaping and the strict
string parser: the escaped text followed by a closing quote parses back
to exactly the original characters. -/
theorem parseStringBody_escape (l r : List Char) :
    parseStringBody (escapeChars l ++ '"' :: r) = some (l, r) := by
  induction l with
  | nil =>
    rw [escapeChars, List.nil_append, parseStringBody.eq_def]
    simp
  | cons c cs ih =>
    rw [escapeChars, List.append_assoc]
    unfold escapeChar
    by_cases h1 : c = '"'
    · rw [if_pos h1, h1]
      rw [List.cons_append, List.cons_append, parseStringBody.eq_def]
      simp [escChar, ih]
    · rw [if_neg h1]
      by_cases h2 : c = '\\'
      · rw [if_pos h2, h2]
        rw [List.cons_append, List.cons_append, parseStringBody.eq_def]
        simp [escChar, ih]
      · rw [if_neg h2]
        by_cases h3 : c = '\n'
        · rw [if_pos h3, h3]
          rw [List.cons_append, List.cons_append, parseStringBody.eq_def]
          simp [escChar, ih]
        · rw [if_neg h3]
          by_cases h4 : c = '\r'
          · rw [if_pos h4, h4]
            rw [List.cons_append, List.cons_append, parseStringBody.eq_def]
            simp [escChar, ih]
          · rw [if_neg h4]
            by_cases h5 : c = '\t'
            · rw [if_pos h5, h5]
              rw [List.cons_append, List.cons_append, parseStringBody.eq_def]
              simp [escChar, ih]
            · rw [if_neg h5]
              by_cases h6 : c.toNat < 32
              · rw [if_pos h6]
                have hd1 : hexDigitVal (hexDigit (c.toNat / 16)) = some (c.toNat / 16) :=
                  hexDigitVal_hexDigit (c.toNat / 16) (by omega)
                have hd2 : hexDigitVal (hexDigit (c.toNat % 16)) = some (c.toNat % 16) :=
                  hexDigitVal_hexDigit (c.toNat % 16) (by omega)
                have hchar : ∀ m, m = c.toNat → Char.ofNat m = c := by
                  intro m hm
                  rw [hm]
                  exact char_ofNat_toNat_small c (by omega)
                have hd0 : hexDigitVal '0' = some 0 := rfl
                rw [parseStringBody.eq_def]
                simp [hd0, hd1, hd2, ih]
                apply hchar
                omega
              · rw [if_neg h6]
                rw [List.cons_append, parseStringBody.eq_def]
                simp [h1, h2, h6, ih]

theorem psb_quote (rest : List Char) : parseStringBody ('"' :: rest) = some ([], rest) := by
  rw [parseStringBody.eq_def]
  simp

theorem psb_plain (c : Char) (rest : List Char) (h1 : ¬c = '"') (h2 : ¬c = '\\')
    (h3 : ¬c.toNat < 32) :
    parseStringBody (c :: rest) =
      (match parseStringBody rest with
       | some (s, r) => some (c :: s, r)
       | none => none) := by
  rw [parseStringBody.eq_def]
  simp [h1, h2, h3]

/-- Parse of the `"text"` member with the escaped text value. -/
theorem pm_text (g : Nat) (t : String) (X : List Char) :
    parseMembers (g + 2)
      ('"' :: 't' :: 'e' :: 'x' :: 't' :: '"' :: ':' :: '"' :: (escapeChars t.data ++ '"' :: '\x7d' :: X)) =
      some ([("text", JVal.jstr t)], X) := by
  have hk : String.mk ['t', 'e', 'x', 't'] = "text" := rfl
  have hmk : ∀ s : String, String.mk s.data = s := fun s => rfl
  rw [parseMembers.eq_def]
  simp [psb_plain, psb_quote, parseValue.eq_def, skipWs, isJsonWs,
    parseStringBody_escape, hk, hmk]

/-- Parse of the item object's members. -/
theorem pm_item (g : Nat) (t : String) (X : List Char) :
    parseMembers (g + 4)
      ('"' :: 't' :: 'y' :: 'p' :: 'e' :: '"' :: ':' :: '"' :: 't' :: 'e' :: 'x' :: 't' :: '"' :: ',' :: '"' :: 't' :: 'e' :: 'x' :: 't' :: '"' :: ':' :: '"' :: (escapeChars t.data ++ '"' :: '\x7d' :: X)) =
      some ([("type", JVal.jstr "text"), ("text", JVal.jstr t)], X) := by
  have hk : String.mk ['t', 'y', 'p', 'e'] = "type" := rfl
  have hk2 : String.mk ['t', 'e', 'x', 't'] = "text" := rfl
  rw [parseMembers.eq_def]
  simp [psb_plain, psb_quote, parseValue.eq_def, skipWs, isJsonWs, pm_text, hk, hk2]

/-- Parse of the single content item as a value. -/
theorem pv_item (g : Nat) (t : String) (X : List Char) :
    parseValue (g + 5)
      ('\x7b' :: '"' :: 't' :: 'y' :: 'p' :: 'e' :: '"' :: ':' :: '"' :: 't' :: 'e' :: 'x' :: 't' :: '"' :: ',' :: '"' :: 't' :: 'e' :: 'x' :: 't' :: '"' :: ':' :: '"' :: (escapeChars t.data ++ '"' :: '\x7d' :: X)) =
      some (JVal.jobj [("type", JVal.jstr "text"), ("text", JVal.jstr t)], X) := by
  rw [parseValue.eq_def]
  simp [skipWs, isJsonWs, pm_item]

/-- Parse of the one-item array body. -/
theorem pi_items (g : Nat) (t : String) (X : List Char) :
    parseItems (g + 6)
      ('\x7b' :: '"' :: 't' :: 'y' :: 'p' :: 'e' :: '"' :: ':' :: '"' :: 't' :: 'e' :: 'x' :: 't' :: '"' :: ',' :: '"' :: 't' :: 'e' :: 'x' :: 't' :: '"' :: ':' :: '"' :: (escapeChars t.data ++ '"' :: '\x7d' :: ']' :: X)) =
      some ([JVal.jobj [("type", JVal.jstr "text"), ("text", JVal.jstr t)]], X) := by
  rw [parseItems.eq_def]
  simp [skipWs, isJsonWs, pv_item]

/-- Parse of the `content` array value. -/
theorem pv_content (g : Nat) (t : String) (X : List Char) :
    parseValue (g + 7)
      ('[' :: '\x7b' :: '"' :: 't' :: 'y' :: 'p' :: 'e' :: '"' :: ':' :: '"' :: 't' :: 'e' :: 'x' :: 't' :: '"' :: ',' :: '"' :: 't' :: 'e' :: 'x' :: 't' :: '"' :: ':' :: '"' ::
        (escapeChars t.data ++ '"' :: '\x7d' :: ']' :: X)) =
      some (JVal.jarr [JVal.jobj [("type", JVal.jstr "text"), ("text", JVal.jstr t)]], X) := by
  rw [parseValue.eq_def]
  simp [skipWs, isJsonWs, pi_items]

/-- Parse of the `"content"` member. -/
theorem pm_content (g : Nat) (t : String) (X : List Char) :
    parseMembers (g + 8)
      ('"' :: 'c' :: 'o' :: 'n' :: 't' :: 'e' :: 'n' :: 't' :: '"' :: ':' :: '[' :: '\x7b' :: '"' :: 't' :: 'y' :: 'p' :: 'e' :: '"' :: ':' :: '"' :: 't' :: 'e' :: 'x' :: 't' :: '"' :: ',' :: '"' :: 't' :: 'e' :: 'x' :: 't' :: '"' :: ':' :: '"' ::
        (escapeChars t.data ++ '"' :: '\x7d' :: ']' :: '\x7d' :: X)) =
      some ([("content", JVal.jarr [JVal.jobj [("type", JVal.jstr "text"), ("text", JVal.jstr t)]])], X) := by
  have hk : String.mk ['c', 'o', 'n', 't', 'e', 'n', 't'] = "content" := rfl
  rw [parseMembers.eq_def]
  simp [psb_plain, psb_quote, skipWs, isJsonWs, pv_content, hk]

/-- Parse of the inner message object's members. -/
theorem pm_inner (g : Nat) (t : String) (X : List Char) :
    parseMembers (g + 10)
      ('"' :: 'r' :: 'o' :: 'l' :: 'e' :: '"' :: ':' :: '"' :: 'a' :: 's' :: 's' :: 'i' :: 's' :: 't' :: 'a' :: 'n' :: 't' :: '"' :: ',' :: '"' :: 'c' :: 'o' :: 'n' :: 't' :: 'e' :: 'n' :: 't' :: '"' :: ':' :: '[' :: '\x7b' :: '"' :: 't' :: 'y' :: 'p' :: 'e' :: '"' :: ':' :: '"' :: 't' :: 'e' :: 'x' :: 't' :: '"' :: ',' :: '"' :: 't' :: 'e' :: 'x' :: 't' :: '"' :: ':' :: '"' ::
        (escapeChars t.data ++ '"' :: '\x7d' :: ']' :: '\x7d' :: X)) =
      some ([("role", JVal.jstr "assistant"),
        ("content", JVal.jarr [JVal.jobj [("type", JVal.jstr "text"), ("text", JVal.jstr t)]])], X) := by
  have hk : String.mk ['r', 'o', 'l', 'e'] = "role" := rfl
  have hk2 : String.mk ['a', 's', 's', 'i', 's', 't', 'a', 'n', 't'] = "assistant" := rfl
  rw [parseMembers.eq_def]
  simp [psb_plain, psb_quote, parseValue.eq_def, skipWs, isJsonWs, pm_content, hk, hk2]

/-- Parse of the second physical line (preceded by the separating
newline) as a value: the inner message object; the remainder keeps the
final brace that closes the outer record object. -/
theorem pv_inner (g : Nat) (t : String) (X : List Char) :
    parseValue (g + 11)
      ('\n' :: '\x7b' :: '"' :: 'r' :: 'o' :: 'l' :: 'e' :: '"' :: ':' :: '"' :: 'a' :: 's' :: 's' :: 'i' :: 's' :: 't' :: 'a' :: 'n' :: 't' :: '"' :: ',' :: '"' :: 'c' :: 'o' :: 'n' :: 't' :: 'e' :: 'n' :: 't' :: '"' :: ':' :: '[' :: '\x7b' :: '"' :: 't' :: 'y' :: 'p' :: 'e' :: '"' :: ':' :: '"' :: 't' :: 'e' :: 'x' :: 't' :: '"' :: ',' :: '"' :: 't' :: 'e' :: 'x' :: 't' :: '"' :: ':' :: '"' ::
        (escapeChars t.data ++ '"' :: '\x7d' :: ']' :: '\x7d' :: '\x7d' :: X)) =
      some (JVal.jobj [("role", JVal.jstr "assistant"), ("content", JVal.jarr [JVal.jobj [("type", JVal.jstr "text"), ("text", JVal.jstr t)]])], '\x7d' :: X) := by
  rw [parseValue.eq_def]
  simp [skipWs, isJsonWs, pm_inner]

/-- Parse of the outer record object's single `"message"` member. -/
theorem pm_outer (g : Nat) (t : String) (X : List Char) :
    parseMembers (g + 13)
      ('"' :: 'm' :: 'e' :: 's' :: 's' :: 'a' :: 'g' :: 'e' :: '"' :: ':' :: '\n' :: '\x7b' :: '"' :: 'r' :: 'o' :: 'l' :: 'e' :: '"' :: ':' :: '"' :: 'a' :: 's' :: 's' :: 'i' :: 's' :: 't' :: 'a' :: 'n' :: 't' :: '"' :: ',' :: '"' :: 'c' :: 'o' :: 'n' :: 't' :: 'e' :: 'n' :: 't' :: '"' :: ':' :: '[' :: '\x7b' :: '"' :: 't' :: 'y' :: 'p' :: 'e' :: '"' :: ':' :: '"' :: 't' :: 'e' :: 'x' :: 't' :: '"' :: ',' :: '"' :: 't' :: 'e' :: 'x' :: 't' :: '"' :: ':' :: '"' ::
        (escapeChars t.data ++ '"' :: '\x7d' :: ']' :: '\x7d' :: '\x7d' :: X)) =
      some ([("message", JVal.jobj [("role", JVal.jstr "assistant"), ("content", JVal.jarr [JVal.jobj [("type", JVal.jstr "text"), ("text", JVal.jstr t)]])])], X) := by
  have hk : String.mk ['m', 'e', 's', 's', 'a', 'g', 'e'] = "message" := rfl
  rw [parseMembers.eq_def]
  simp [psb_plain, psb_quote, skipWs, isJsonWs, pv_inner, hk]

/-- Parse of one whole serialized record (two physical lines) followed by
an arbitrary remainder. -/
theorem parseValue_record (g : Nat) (t : String) (rest : List Char) :
    parseValue (g + 16) (recordChars t ++ rest) = some (recordJVal t, rest) := by
  rw [recordChars, recordLineA, recordLineB, parseValue.eq_def]
  simp [recordJVal, skipWs, isJsonWs, pm_outer]

theorem recordChars_length (t : String) : 15 ≤ (recordChars t).length := by
  simp [recordChars, recordLineA, recordLineB]

theorem jsonParseChars_record (t : String) :
    jsonParseChars (recordChars t) = some (recordJVal t) := by
  have hlen : 15 ≤ (recordChars t).length := recordChars_length t
  have hp := parseValue_record ((recordChars t).length - 15) t []
  rw [List.append_nil] at hp
  rw [jsonParseChars]
  rw [show (recordChars t).length + 1 = ((recordChars t).length - 15) + 16 from by omega]
  rw [hp]
  rfl

theorem splitNl_no_newline (a : List Char) (ha : a.all (fun c => c ≠ '\n') = true) :
    splitNl a = [a] := by
  induction a with
  | nil => rfl
  | cons c rest ih =>
    rw [List.all_cons, Bool.and_eq_true] at ha
    rw [splitNl]
    rw [if_neg (by simpa using ha.1)]
    rw [ih ha.2]

theorem splitNl_append (a : List Char) (ha : a.all (fun c => c ≠ '\n') = true)
    (b : List Char) : splitNl (a ++ '\n' :: b) = a :: splitNl b := by
  induction a with
  | nil =>
    rw [List.nil_append, splitNl]
    simp
  | cons c rest ih =>
    rw [List.all_cons, Bool.and_eq_true] at ha
    rw [List.cons_append, splitNl]
    rw [if_neg (by simpa using ha.1)]
    rw [ih ha.2]

theorem hexDigit_ne_newline (n : Nat) (h : n < 16) : ¬ hexDigit n = '\n' := by
  interval_cases n <;> decide

theorem escapeChar_no_newline (c : Char) :
    (escapeChar c).all (fun x => x ≠ '\n') = true := by
  unfold escapeChar
  by_cases h1 : c = '"'
  · rw [if_pos h1]; decide
  · rw [if_neg h1]
    by_cases h2 : c = '\\'
    · rw [if_pos h2]; decide
    · rw [if_neg h2]
      by_cases h3 : c = '\n'
      · rw [if_pos h3]; decide
      · rw [if_neg h3]
        by_cases h4 : c = '\r'
        · rw [if_pos h4]; decide
        · rw [if_neg h4]
          by_cases h5 : c = '\t'
          · rw [if_pos h5]; decide
          · rw [if_neg h5]
            by_cases h6 : c.toNat < 32
            · rw [if_pos h6]
              have n1 := hexDigit_ne_newline (c.toNat / 16) (by omega)
              have n2 := hexDigit_ne_newline (c.toNat % 16) (by omega)
              simp [n1, n2]
            · rw [if_neg h6]
              simp
              intro hc
              rw [hc] at h6
              exact h6 (by decide)

theorem escapeChars_no_newline (l : List Char) :
    (escapeChars l).all (fun x => x ≠ '\n') = true := by
  induction l with
  | nil => rfl
  | cons c rest ih =>
    rw [escapeChars, List.all_append, Bool.and_eq_true]
    exact ⟨escapeChar_no_newline c, ih⟩

theorem recordLineA_no_newline : recordLineA.all (fun x => x ≠ '\n') = true := by decide

theorem recordLineB_no_newline (t : String) :
    (recordLineB t).all (fun x => x ≠ '\n') = true := by
  rw [recordLineB]
  rw [List.all_append, List.all_append]
  simp only [Bool.and_eq_true]
  exact ⟨by decide, escapeChars_no_newline t.toList, by decide⟩

theorem joinNl_cons_cons (r r2 : List Char) (rs : List (List Char)) :
    joinNl (r :: r2 :: rs) = r ++ '\n' :: joinNl (r2 :: rs) := by
  rw [joinNl]

/-- The physical lines of a serialized transcript: two per record. -/
theorem splitNl_join (texts : List String) (h : texts ≠ []) :
    splitNl (joinNl (texts.map recordChars)) =
      texts.flatMap (fun t => [recordLineA, recordLineB t]) := by
  induction texts with
  | nil => exact absurd rfl h
  | cons t rest ih =>
    cases rest with
    | nil =>
      simp only [List.map_cons, List.map_nil, List.flatMap_cons, List.flatMap_nil, joinNl,
        List.append_nil]
      rw [recordChars]
      rw [splitNl_append recordLineA recordLineA_no_newline]
      rw [splitNl_no_newline (recordLineB t) (recordLineB_no_newline t)]
    | cons t2 rest2 =>
      rw [List.map_cons, List.map_cons, joinNl_cons_cons]
      rw [recordChars, List.append_assoc]
      simp only [List.cons_append]
      rw [splitNl_append recordLineA recordLineA_no_newline]
      rw [splitNl_append (recordLineB t) (recordLineB_no_newline t)]
      rw [← List.map_cons recordChars t2 rest2, ih (by simp)]
      simp

/-- One reconstruction round: the first physical line of a record does
not parse on its own, the rejoined two-line buffer does, so exactly one
logical record is closed per serialized turn. -/
theorem reconstructGo_record_step (t : String) (more : List (List Char)) :
    reconstructGo (recordLineA :: recordLineB t :: more) [] =
      recordChars t :: reconstructGo more [] := by
  have heq : (recordLineA ++ ['\n']) ++ recordLineB t = recordChars t := by
    simp [recordChars]
  have hB : jsonParseChars ((recordLineA ++ ['\n']) ++ recordLineB t) = some (recordJVal t) := by
    rw [heq, jsonParseChars_record]
  rw [reconstructGo]
  simp only [List.nil_append]
  rw [show jsonParseChars recordLineA = none from rfl]
  simp only [Option.isSome_none, Bool.false_eq_true, if_false]
  rw [reconstructGo, hB]
  simp [heq]

theorem reconstruct_records (texts : List String) :
    reconstructGo (texts.flatMap (fun t => [recordLineA, recordLineB t])) [] =
      texts.map recordChars := by
  induction texts with
  | nil => rfl
  | cons t rest ih =>
    rw [List.flatMap_cons, List.map_cons]
    simp only [List.cons_append, List.nil_append]
    rw [reconstructGo_record_step, ih]

/-- A string whose first and last characters are not whitespace is left
unchanged by trimming. -/
theorem jsTrimList_id (c : Char) (mid : List Char) (d : Char)
    (hc : isJsonWs c = false) (hd : isJsonWs d = false) :
    jsTrimList (c :: (mid ++ [d])) = c :: (mid ++ [d]) := by
  unfold jsTrimList
  rw [List.dropWhile_cons]
  rw [hc]
  simp only [Bool.false_eq_true, if_false]
  rw [show (c :: (mid ++ [d])).reverse = d :: (mid.reverse ++ [c]) from by simp]
  rw [List.dropWhile_cons, hd]
  simp only [Bool.false_eq_true, if_false]
  simp

theorem processEntry_record (t : String) (h : ¬ t = "") :
    processEntry (recordJVal t) = some (cleanMessage t) := by
  unfold processEntry recordJVal
  simp [jGet, jsTruthy, findTextItem, h, List.lookup]

theorem scanEntries_record_cons (t : String) (h : ¬ t = "") (rest : List (List Char)) :
    scanEntries (recordChars t :: rest) = some (cleanMessage t) := by
  rw [scanEntries]
  simp [jsonParseChars_record, processEntry_record t h]

/-- The scan order: the most recent of up to twenty records comes first. -/
theorem lastTwenty_snoc_reverse (es : List (List Char)) (x : List Char) :
    (lastTwenty (es ++ [x])).reverse =
      x :: (es.drop ((es ++ [x]).length - 20)).reverse := by
  unfold lastTwenty
  rw [List.drop_append_of_le_length (by simp)]
  simp

/-- Interior of a serialized record between its outer braces. -/
def recordMid (t : String) : List Char :=
  "\"message\":".toList ++ '\n' ::
    ("\x7b\"role\":\"assistant\",\"content\":[\x7b\"type\":\"text\",\"text\":\"".toList ++
      (escapeChars t.toList ++ "\"\x7d]\x7d".toList))

theorem recordChars_decomp (t : String) :
    recordChars t = '\x7b' :: (recordMid t ++ ['\x7d']) := by
  simp [recordChars, recordLineA, recordLineB, recordMid]

theorem joinNl_records_decomp (ts : List String) (t : String) :
    ∃ mid, joinNl ((ts ++ [t]).map recordChars) = '\x7b' :: (mid ++ ['\x7d']) := by
  induction ts with
  | nil =>
    refine ⟨recordMid t, ?_⟩
    simp only [List.nil_append, List.map_cons, List.map_nil, joinNl, List.append_nil]
    exact recordChars_decomp t
  | cons a ts2 ih =>
    rcases ih with ⟨mid, hmid⟩
    refine ⟨recordMid a ++ '\x7d' :: '\n' :: '\x7b' :: mid, ?_⟩
    have hne : (ts2 ++ [t]).map recordChars ≠ [] := by simp
    obtain ⟨m, ms, hm⟩ := List.exists_cons_of_ne_nil hne
    rw [List.cons_append, List.map_cons, hm, joinNl_cons_cons, ← hm, hmid]
    rw [recordChars_decomp a]
    simp

theorem serialize_trim (ts : List String) (t : String) :
    jsTrimList (joinNl ((ts ++ [t]).map recordChars)) =
      joinNl ((ts ++ [t]).map recordChars) := by
  obtain ⟨mid, hmid⟩ := joinNl_records_decomp ts t
  rw [hmid]
  exact jsTrimList_id '\x7b' mid '\x7d' (by decide) (by decide)

/-- C5 counterexample: serializing the two turns `hello` and `` (the
most recent turn has empty text) and resolving the transcript returns
the previous turn's text `hello`, not the most recent turn's text, so
the round trip as claimed fails when the most recent turn is empty. -/
theorem roundtrip_empty_last_turn :
    extractLastAssistantMessage (serializeTranscript ["hello", ""]) = ("hello", none) ∧
    ¬ ("hello" : String) = "" := by
  constructor
  · rfl
  · decide

/-- C5 (amended): for every transcript obtained by serializing the
assistant turns `ts ++ [t]` (texts may contain embedded newlines, which
the serialization escapes, while the records span two physical lines
each), reconstruction recovers exactly one logical record per turn, and,
provided the most recent turn's text `t` is nonempty, resolution returns
`t` with the trailing-tag handling applied (text unchanged when no tag is
found). An empty most recent turn is skipped and an earlier turn can be
returned instead. -/
theorem transcript_roundtrip (ts : List String) (t : String) (ht : ¬ t = "") :
    transcriptEntries (serializeTranscript (ts ++ [t])) = (ts ++ [t]).map recordChars ∧
    extractLastAssistantMessage (serializeTranscript (ts ++ [t])) = cleanMessage t := by
  have hlist : (serializeTranscript (ts ++ [t])).toList =
      joinNl ((ts ++ [t]).map recordChars) := rfl
  have htrim := serialize_trim ts t
  obtain ⟨mid, hmid⟩ := joinNl_records_decomp ts t
  have hentries : transcriptEntries (serializeTranscript (ts ++ [t])) =
      (ts ++ [t]).map recordChars := by
    unfold transcriptEntries
    rw [hlist, htrim]
    rw [splitNl_join (ts ++ [t]) (by simp)]
    unfold reconstruct
    rw [reconstruct_records]
  refine ⟨hentries, ?_⟩
  unfold extractLastAssistantMessage
  rw [hlist, htrim]
  rw [if_neg (by rw [hmid]; simp)]
  rw [hentries]
  rw [show (ts ++ [t]).map recordChars = ts.map recordChars ++ [recordChars t] from by simp]
  rw [lastTwenty_snoc_reverse, scanEntries_record_cons t ht]

/-- C5 amended-claim witness at a concrete two-turn transcript. -/
theorem transcript_roundtrip_witness :
    extractLastAssistantMessage (serializeTranscript (["first turn"] ++ ["second turn done"])) =
      cleanMessage "second turn done" :=
  (transcript_roundtrip ["first turn"] "second turn done" (by decide)).2

/-- C6 counterexample: a never-parseable line ahead of a valid assistant
record absorbs the rest of the file into one incomplete buffer, so the
record after it is not found (the resolver returns empty text), although
the same record alone is found; this refutes the claim that a valid
assistant record appearing after a malformed line is still found and
returned. -/
theorem malformed_line_poisons_scan :
    extractLastAssistantMessage
      (String.mk ('@' :: '@' :: '@' :: '\n' :: recordChars "hello")) = ("", none) ∧
    extractLastAssistantMessage (String.mk (recordChars "hello")) = ("hello", none) := by
  constructor
  · rfl
  · rfl

theorem scanEntries_shapeless_cons (rest : List (List Char)) :
    scanEntries (("\x7b\"foo\":\"bar\"\x7d".toList) :: rest) = scanEntries rest := by
  rw [scanEntries]
  rw [show jsonParseChars ("\x7b\"foo\":\"bar\"\x7d".toList) =
      some (JVal.jobj [("foo", JVal.jstr "bar")]) from rfl]
  simp [show processEntry (JVal.jobj [("foo", JVal.jstr "bar")]) = none from rfl]

/-- C6 (amended): a record that parses as JSON but lacks the expected
role/content shape is skipped without error and the scan continues to
older records; a never-parseable trailing line is discarded without
error and the records before it are still recovered; the resolver never
raises. However, because the reconstruction buffer is never reset after
a never-parseable line, records appearing after such a line are absorbed
into one incomplete buffer and are not found. -/
theorem transcript_skip_shapeless (t : String) (ht : ¬ t = "") :
    extractLastAssistantMessage
      (String.mk (recordChars t ++ '\n' :: '@' :: '@' :: '@' :: [])) = cleanMessage t ∧
    extractLastAssistantMessage
      (String.mk (recordChars t ++ '\n' :: ("\x7b\"foo\":\"bar\"\x7d".toList))) =
      cleanMessage t := by
  constructor
  · have hdecomp : (String.mk (recordChars t ++ '\n' :: '@' :: '@' :: '@' :: [])).toList =
        '\x7b' :: ((recordMid t ++ '\x7d' :: '\n' :: '@' :: '@' :: []) ++ ['@']) := by
      show recordChars t ++ '\n' :: '@' :: '@' :: '@' :: [] = _
      rw [recordChars_decomp t]
      simp
    unfold extractLastAssistantMessage
    rw [hdecomp, jsTrimList_id '\x7b' _ '@' (by decide) (by decide)]
    rw [if_neg (by simp)]
    unfold transcriptEntries
    rw [hdecomp, jsTrimList_id '\x7b' _ '@' (by decide) (by decide)]
    rw [show '\x7b' :: ((recordMid t ++ '\x7d' :: '\n' :: '@' :: '@' :: []) ++ ['@']) =
        recordChars t ++ '\n' :: ('@' :: '@' :: '@' :: []) from by rw [recordChars_decomp t]; simp]
    rw [show recordChars t ++ '\n' :: ('@' :: '@' :: '@' :: []) =
        recordLineA ++ '\n' :: (recordLineB t ++ '\n' :: ('@' :: '@' :: '@' :: [])) from by
      rw [recordChars]; simp]
    rw [splitNl_append recordLineA recordLineA_no_newline]
    rw [splitNl_append (recordLineB t) (recordLineB_no_newline t)]
    rw [splitNl_no_newline ('@' :: '@' :: '@' :: []) (by decide)]
    unfold reconstruct
    rw [reconstructGo_record_step]
    rw [show reconstructGo [('@' :: '@' :: '@' :: [])] [] = [] from rfl]
    rw [show (lastTwenty [recordChars t]).reverse = [recordChars t] from by simp [lastTwenty]]
    rw [scanEntries_record_cons t ht]
  · have hdecomp : (String.mk (recordChars t ++ '\n' ::
        ("\x7b\"foo\":\"bar\"\x7d".toList))).toList =
        '\x7b' :: ((recordMid t ++ '\x7d' :: '\n' :: ("\x7b\"foo\":\"bar\"".toList)) ++
          ['\x7d']) := by
      show recordChars t ++ '\n' :: ("\x7b\"foo\":\"bar\"\x7d".toList) = _
      rw [recordChars_decomp t]
      simp
    unfold extractLastAssistantMessage
    rw [hdecomp, jsTrimList_id '\x7b' _ '\x7d' (by decide) (by decide)]
    rw [if_neg (by simp)]
    unfold transcriptEntries
    rw [hdecomp, jsTrimList_id '\x7b' _ '\x7d' (by decide) (by decide)]
    rw [show '\x7b' :: ((recordMid t ++ '\x7d' :: '\n' :: ("\x7b\"foo\":\"bar\"".toList)) ++
        ['\x7d']) = recordChars t ++ '\n' :: ("\x7b\"foo\":\"bar\"\x7d".toList) from by
      rw [recordChars_decomp t]; simp]
    rw [show recordChars t ++ '\n' :: ("\x7b\"foo\":\"bar\"\x7d".toList) =
        recordLineA ++ '\n' :: (recordLineB t ++ '\n' :: ("\x7b\"foo\":\"bar\"\x7d".toList)) from by
      rw [recordChars]; simp]
    rw [splitNl_append recordLineA recordLineA_no_newline]
    rw [splitNl_append (recordLineB t) (recordLineB_no_newline t)]
    rw [splitNl_no_newline ("\x7b\"foo\":\"bar\"\x7d".toList) (by decide)]
    unfold reconstruct
    rw [reconstructGo_record_step]
    rw [show reconstructGo [("\x7b\"foo\":\"bar\"\x7d".toList)] [] =
        [("\x7b\"foo\":\"bar\"\x7d".toList)] from rfl]
    rw [show lastTwenty [recordChars t, ("\x7b\"foo\":\"bar\"\x7d".toList)] =
        [recordChars t, ("\x7b\"foo\":\"bar\"\x7d".toList)] from by simp [lastTwenty]]
    rw [show ([recordChars t, ("\x7b\"foo\":\"bar\"\x7d".toList)] :
        List (List Char)).reverse = ("\x7b\"foo\":\"bar\"\x7d".toList) :: [recordChars t] from by
      simp]
    rw [scanEntries_shapeless_cons, scanEntries_record_cons t ht]

/-- C6 amended-claim witness at a concrete turn text. -/
theorem transcript_skip_shapeless_witness :
    extractLastAssistantMessage
      (String.mk (recordChars "hi there" ++ '\n' :: '@' :: '@' :: '@' :: [])) =
      cleanMessage "hi there" :=
  (transcript_skip_shapeless "hi there" (by decide)).1

/-- Per-context configuration consumed by `main` (types.ts
`ContextConfig`): the summarization style and the optional cache
override. -/
structure CtxConfig where
  style : String
  cache : Option Bool
deriving DecidableEq

/-- Terminal outcome of the pipeline stage of `main` (hookParser.ts):
an early exit, a thrown error (captured by the outer catch block), or a
completed run that dispatched the given sentences. -/
inductive MainOutcome where
  | exitNoText : MainOutcome
  | exitSilent : MainOutcome
  | errored (msg : String) : MainOutcome
  | spoke (sentences : List String) : MainOutcome
deriving DecidableEq

/-- Provider switch of the `LLMClient` constructor (llm.ts lines
93-115): `openai` requires a truthy api key (the constructor passes
`config.apiKey || ''` down and `OpenAIProvider` throws on a falsy key),
`ollama` always constructs, and any other provider string throws. -/
def mkLLMClient (providerName : String) (apiKey : Option String) : Except String Unit :=
  if providerName = "openai" then
    if jsOr apiKey "" = "" then Except.error "OpenAI provider requires API key in config"
    else Except.ok ()
  else if providerName = "ollama" then Except.ok ()
  else Except.error ("Unsupported LLM provider: " ++ providerName)

/-- Embedding of the pipeline stage of `main` (hookParser.ts lines
110-156), from the resolved transcript message onward: the empty-text
exit, the tag defaults context `assistant` / intent `discussion` /
project absent, the context-configuration lookup with the assistant
fallback, the silent early exit, LLM construction and summarization,
the voice guards, and the dispatch. A thrown error becomes the
`errored` outcome (handled by the outer catch block); the provider call
log and the speech channel trace are returned alongside. -/
def mainProcess (text : String) (metadata : Option ClarvisMetadata)
    (contexts : List (String × CtxConfig))
    (llmProviderName : String) (llmApiKey : Option String) (llmCfg : LLMPromptCfg)
    (provider : String → String → String → String → Except String String)
    (segmenter : String → Option (List String))
    (voice : Option VoiceConfig)
    (channel : List String → Except String Unit) :
    MainOutcome × List ProviderCall × List SpeakEvent :=
  if text = "" then (MainOutcome.exitNoText, [], [])
  else
    match (contexts.lookup (jsOr (metadata.map (fun m => m.context)) "assistant")).orElse
        (fun _ => contexts.lookup "assistant") with
    | none =>
      (MainOutcome.errored ("No configuration found for context \x27" ++
        jsOr (metadata.map (fun m => m.context)) "assistant" ++
        "\x27 and no assistant context configured"), [], [])
    | some cc =>
      if cc.style = "silent" then (MainOutcome.exitSilent, [], [])
      else
        match mkLLMClient llmProviderName llmApiKey with
        | Except.error e => (MainOutcome.errored e, [], [])
        | Except.ok _ =>
          match summarize llmCfg provider segmenter text cc.style
              (jsOr (metadata.map (fun m => m.context)) "assistant")
              (jsOr (metadata.map (fun m => m.intent)) "discussion")
              (metadata.bind (fun m => m.project)) with
          | (Except.error e, plog) => (MainOutcome.errored e, plog, [])
          | (Except.ok sentences, plog) =>
            match voice with
            | none =>
              (MainOutcome.errored "Voice configuration missing from config.toml", plog, [])
            | some vc =>
              if vc.provider = "elevenlabs" ∧ jsOr vc.api_key "" = "" then
                (MainOutcome.errored
                  "ElevenLabs API key required when using elevenlabs provider", plog, [])
              else
                match speak vc channel sentences cc.style cc.cache with
                | (Except.error e, tr) => (MainOutcome.errored e, plog, tr)
                | (Except.ok _, tr) => (MainOutcome.spoke sentences, plog, tr)

/-- C10: a nonempty resolved message with no valid control tag does not
short-circuit the pipeline: with an assistant context configured whose
style is neither silent nor bypass, a configured nonempty template for
that style and an ollama provider, the pipeline proceeds to exactly one
summarization call built with the defaults context `assistant`, intent
`discussion` and no project (topic `general`), and dispatches the
resulting sentences with the assistant configuration's style and cache
setting. The assistant configuration is also the fallback: a tag whose
context has no configuration entry runs the same pipeline under the
assistant configuration, with the tag's own context and intent flowing
into the summarization call. -/
theorem main_no_tag_defaults
    (text : String) (contexts : List (String × CtxConfig)) (cc : CtxConfig)
    (llmCfg : LLMPromptCfg) (prompt : String)
    (provider : String → String → String → String → Except String String)
    (segmenter : String → Option (List String)) (vc : VoiceConfig)
    (channel : List String → Except String Unit)
    (htext : ¬ text = "")
    (hcc : contexts.lookup "assistant" = some cc)
    (hsilent : ¬ cc.style = "silent") (hbyp : ¬ cc.style = "bypass")
    (hprompt : llmCfg.prompts.lookup cc.style = some prompt) (hpne : ¬ prompt = "")
    (hvoice : ¬ vc.provider = "elevenlabs") :
    (∀ out, provider text (fullPromptFor llmCfg prompt "assistant" "discussion" none)
        "general" "assistant" = Except.ok out →
      mainProcess text none contexts "ollama" none llmCfg provider segmenter (some vc)
          channel =
        ((match (speak vc channel ((splitIntoSentences segmenter out).map jsTrim)
            cc.style cc.cache).1 with
          | Except.ok _ =>
            MainOutcome.spoke ((splitIntoSentences segmenter out).map jsTrim)
          | Except.error e => MainOutcome.errored e),
         [⟨text, fullPromptFor llmCfg prompt "assistant" "discussion" none, "general",
            "assistant"⟩],
         (speak vc channel ((splitIntoSentences segmenter out).map jsTrim)
           cc.style cc.cache).2)) ∧
    (∀ m : ClarvisMetadata, ∀ out, contexts.lookup m.context = none →
      ¬ m.context = "" → ¬ m.intent = "" →
      provider text (fullPromptFor llmCfg prompt m.context m.intent m.project)
        (jsOr m.project "general") m.context = Except.ok out →
      mainProcess text (some m) contexts "ollama" none llmCfg provider segmenter (some vc)
          channel =
        ((match (speak vc channel ((splitIntoSentences segmenter out).map jsTrim)
            cc.style cc.cache).1 with
          | Except.ok _ =>
            MainOutcome.spoke ((splitIntoSentences segmenter out).map jsTrim)
          | Except.error e => MainOutcome.errored e),
         [⟨text, fullPromptFor llmCfg prompt m.context m.intent m.project,
            jsOr m.project "general", m.context⟩],
         (speak vc channel ((splitIntoSentences segmenter out).map jsTrim)
           cc.style cc.cache).2)) := by
  constructor
  · intro out hprov
    have hsum : summarize llmCfg provider segmenter text cc.style "assistant" "discussion"
        none =
        (Except.ok ((splitIntoSentences segmenter out).map jsTrim),
         [⟨text, fullPromptFor llmCfg prompt "assistant" "discussion" none, "general",
            "assistant"⟩]) := by
      unfold summarize
      rw [if_neg hbyp, hprompt]
      simp only
      rw [if_neg hpne]
      rw [show jsOr (none : Option String) "general" = "general" from rfl]
      rw [hprov]
    unfold mainProcess
    rw [if_neg htext]
    rw [show jsOr (Option.map (fun m => m.context) (none : Option ClarvisMetadata))
        "assistant" = "assistant" from rfl]
    rw [show jsOr (Option.map (fun m => m.intent) (none : Option ClarvisMetadata))
        "discussion" = "discussion" from rfl]
    rw [show Option.bind (none : Option ClarvisMetadata) (fun m => m.project) =
        (none : Option String) from rfl]
    rw [hcc]
    rw [show ((some cc).orElse (fun _ => (some cc : Option CtxConfig))) = some cc from rfl]
    simp only
    rw [if_neg hsilent]
    rw [show mkLLMClient "ollama" none = Except.ok () from rfl]
    simp only
    rw [hsum]
    simp only
    rw [if_neg (fun hand => hvoice hand.1)]
    cases speak vc channel ((splitIntoSentences segmenter out).map jsTrim)
        cc.style cc.cache with
    | mk r tr => cases r <;> rfl
  · intro m out hnone hmc hmi hprov
    have hsum : summarize llmCfg provider segmenter text cc.style m.context m.intent
        m.project =
        (Except.ok ((splitIntoSentences segmenter out).map jsTrim),
         [⟨text, fullPromptFor llmCfg prompt m.context m.intent m.project,
            jsOr m.project "general", m.context⟩]) := by
      unfold summarize
      rw [if_neg hbyp, hprompt]
      simp only
      rw [if_neg hpne]
      rw [hprov]
    unfold mainProcess
    rw [if_neg htext]
    rw [show jsOr (Option.map (fun m => m.context) (some m)) "assistant" = m.context from by
      show (if m.context = "" then "assistant" else m.context) = m.context
      rw [if_neg hmc]]
    rw [show jsOr (Option.map (fun m => m.intent) (some m)) "discussion" = m.intent from by
      show (if m.intent = "" then "discussion" else m.intent) = m.intent
      rw [if_neg hmi]]
    rw [show Option.bind (some m) (fun m => m.project) = m.project from rfl]
    rw [hnone]
    rw [show ((none : Option CtxConfig).orElse (fun _ => contexts.lookup "assistant")) =
        some cc from by
      show contexts.lookup "assistant" = some cc
      exact hcc]
    simp only
    rw [if_neg hsilent]
    rw [show mkLLMClient "ollama" none = Except.ok () from rfl]
    simp only
    rw [hsum]
    simp only
    rw [if_neg (fun hand => hvoice hand.1)]
    cases speak vc channel ((splitIntoSentences segmenter out).map jsTrim)
        cc.style cc.cache with
    | mk r tr => cases r <;> rfl

/-- C10 witness at a concrete configuration: a nonempty message with no
tag reaches the provider with the defaults baked into the prompt and is
dispatched through the speech channel with the assistant style. -/
theorem main_no_tag_defaults_witness :
    mainProcess "Hello world" none [("assistant", CtxConfig.mk "terse" none)] "ollama" none
      (LLMPromptCfg.mk none [("terse", "Be terse")]) (fun _ _ _ _ => Except.ok "Done.")
      (fun _ => none) (some (VoiceConfig.mk "system" none none none))
      (fun _ => Except.ok ()) =
      (MainOutcome.spoke ["Done."],
       [ProviderCall.mk "Hello world"
          (fullPromptFor (LLMPromptCfg.mk none [("terse", "Be terse")]) "Be terse"
            "assistant" "discussion" none) "general" "assistant"],
       [SpeakEvent.start ["lspeak", "--provider", "system", "Done."],
        SpeakEvent.done ["lspeak", "--provider", "system", "Done."]]) := by
  rw [(main_no_tag_defaults "Hello world" [("assistant", CtxConfig.mk "terse" none)]
      (CtxConfig.mk "terse" none) (LLMPromptCfg.mk none [("terse", "Be terse")]) "Be terse"
      (fun _ _ _ _ => Except.ok "Done.") (fun _ => none) (VoiceConfig.mk "system" none none none)
      (fun _ => Except.ok ()) (by decide) rfl (by decide) (by decide) rfl (by decide)
      (by decide)).1 "Done." rfl]
  rfl

end Clarvis
